import Mathlib

/-!
Verification of pyfreesurfer (neurospin/pyfreesurfer) against its
natural-language specification.

The Python modules under scrutiny are shallowly embedded here:

* `pyfreesurfer/configuration.py` — `environment` (the printenv parser) and
  `concat_environment`;
* `pyfreesurfer/wrapper.py` — `FSWrapper.__call__`, `FSWrapper._environment`,
  `FSWrapper._freesurfer_version_check`, `HCPWrapper.__call__`;
* `pyfreesurfer/conversions/surfconvs.py` — the input-validation preludes of
  `interhemi_surfreg`, `midgray_surface`, `mri_surf2surf`,
  `resample_cortical_surface`;
* `pyfreesurfer/utils/surftools.py` — `TriSurface.__init__`,
  `TriSurface.load`, `apply_affine_on_mesh`.

Python dictionaries are embedded as association lists in insertion order
(CPython preserves insertion order; assignment to an existing key updates the
value in place, assignment to a fresh key appends).  Mutable objects, where a
claim is about aliasing, are embedded with an explicit heap (`List Dict`) and
references are indices into it.  Subprocess results are oracle parameters.
Strings are Lean `String`s; the relevant Python string operations
(`str.split`, `str.replace`, `str.startswith`, `re.match`, `re.findall`) are
embedded on `String`/`List Char` below, restricted to the ASCII behaviour of
the Python `re` module (`\w` = alphanumeric or underscore, `\S` = not one of
space/tab/newline/CR/FF/VT, `.` = anything but newline).
-/

namespace PyFreeSurfer

/-- A Python `dict` with `str` keys and values, in insertion order. -/
abbrev Dict := List (String × String)

/-- Python `d[k]` / `d.get(k)`: the value bound to `k`, scanning from the
front (keys are unique in an actual `dict`, so the first hit is the binding). -/
def dictLookup (d : Dict) (k : String) : Option String :=
  match d with
  | [] => none
  | (k', v) :: rest => if k' = k then some v else dictLookup rest k

/-- Python `k in d`. -/
def dictMem (d : Dict) (k : String) : Bool :=
  (dictLookup d k).isSome

/-- Python `d[k] = v`: update the existing binding in place if `k` is
present, otherwise append the new binding at the end (insertion order). -/
def dictSet (d : Dict) (k : String) (v : String) : Dict :=
  match d with
  | [] => [(k, v)]
  | (k', v') :: rest =>
      if k' = k then (k', v) :: rest else (k', v') :: dictSet rest k v

/-- One iteration of the loop of `concat_environment`
(`pyfreesurfer/configuration.py`, lines 87–93) for the binding
`(key, value)` taken from `env2.items()`:

    if key in concat_env.keys():
        if value != concat_env[key]:
            concat_env[key] += ":" + env2[key]
    else:
        concat_env[key] = env2[key]
-/
def concatStep (acc : Dict) (kv : String × String) : Dict :=
  match dictLookup acc kv.1 with
  | some cur => if kv.2 ≠ cur then dictSet acc kv.1 (cur ++ ":" ++ kv.2) else acc
  | none => dictSet acc kv.1 kv.2

/-- Value-level content of `concat_environment(env1, env2)`
(`pyfreesurfer/configuration.py`, lines 68–94): fold the loop body over
`env2.items()` starting from `env1`.  (The source mutates `env1` through the
alias `concat_env`; the heap-level embedding below reduces to this fold.) -/
def concat_environment (env1 env2 : Dict) : Dict :=
  env2.foldl concatStep env1

/-- The heap for the aliasing claim: each live `dict` object is a cell, a
reference is an index. -/
abbrev Heap := List Dict

/-- Heap-level embedding of `concat_environment`: `concat_env = env1` aliases
the first argument (no copy), the loop reads `env2.items()` from the second
cell and performs every write through the alias, and the function returns the
alias itself.  The returned reference is therefore `r1` and only cell `r1`
is ever written. -/
def concat_environment_impl (h : Heap) (r1 r2 : Nat) : Nat × Heap :=
  let env2 := h.getD r2 []
  (r1, env2.foldl (fun hp kv => hp.set r1 (concatStep (hp.getD r1 []) kv)) h)

/-! ### Association-list laws for the dict embedding -/

theorem dictLookup_dictSet_self (d : Dict) (k v : String) :
    dictLookup (dictSet d k v) k = some v := by
  induction d with
  | nil => simp [dictSet, dictLookup]
  | cons kv rest ih =>
      obtain ⟨k', v'⟩ := kv
      by_cases hk : k' = k <;> simp [dictSet, dictLookup, hk, ih]

theorem dictLookup_dictSet_ne (d : Dict) (k v : String) (k' : String)
    (h : k' ≠ k) : dictLookup (dictSet d k v) k' = dictLookup d k' := by
  induction d with
  | nil => simp [dictSet, dictLookup, Ne.symm h]
  | cons kv rest ih =>
      obtain ⟨k₀, v₀⟩ := kv
      by_cases hk : k₀ = k
      · subst hk
        simp [dictSet, dictLookup, Ne.symm h]
      · by_cases hk' : k₀ = k' <;> simp [dictSet, dictLookup, hk, hk', ih, h]

theorem dictLookup_eq_none_of_not_mem (d : Dict) (k : String)
    (h : k ∉ d.map Prod.fst) : dictLookup d k = none := by
  induction d with
  | nil => rfl
  | cons kv rest ih =>
      simp only [List.map_cons, List.mem_cons] at h
      push_neg at h
      simp [dictLookup, Ne.symm h.1, ih h.2]

theorem dictLookup_concatStep_ne (acc : Dict) (kv : String × String)
    (k : String) (h : k ≠ kv.1) :
    dictLookup (concatStep acc kv) k = dictLookup acc k := by
  unfold concatStep
  cases dictLookup acc kv.1 with
  | none => exact dictLookup_dictSet_ne acc kv.1 kv.2 k h
  | some cur =>
      by_cases hv : kv.2 ≠ cur
      · simp only [if_pos hv]
        exact dictLookup_dictSet_ne acc kv.1 _ k h
      · simp only [if_neg hv]

theorem dictLookup_concatStep_self (acc : Dict) (kv : String × String) :
    dictLookup (concatStep acc kv) kv.1 =
      match dictLookup acc kv.1 with
      | some cur => some (if kv.2 = cur then cur else cur ++ ":" ++ kv.2)
      | none => some kv.2 := by
  unfold concatStep
  cases hc : dictLookup acc kv.1 with
  | none => simp [dictLookup_dictSet_self]
  | some cur =>
      by_cases hv : kv.2 = cur
      · simp [hv, hc]
      · simp [hv, dictLookup_dictSet_self]

/-- The lookup characterisation of the fold inside `concat_environment`,
assuming the second argument has the distinct keys of an actual Python
`dict`. -/
theorem foldl_concatStep_lookup (env2 : Dict)
    (h2 : (env2.map Prod.fst).Nodup) (env1 : Dict) (k : String) :
    dictLookup (env2.foldl concatStep env1) k =
      match dictLookup env1 k, dictLookup env2 k with
      | some w, some v => some (if v = w then w else w ++ ":" ++ v)
      | some w, none => some w
      | none, some v => some v
      | none, none => none := by
  induction env2 generalizing env1 with
  | nil =>
      simp only [List.foldl_nil]
      cases h1 : dictLookup env1 k <;> simp [dictLookup, h1]
  | cons kv rest ih =>
      obtain ⟨k', v'⟩ := kv
      simp only [List.map_cons, List.nodup_cons] at h2
      obtain ⟨hk', hrest⟩ := h2
      simp only [List.foldl_cons]
      by_cases hk : k = k'
      · subst hk
        have hnone : dictLookup rest k = none :=
          dictLookup_eq_none_of_not_mem rest k hk'
        have hcons : dictLookup ((k, v') :: rest) k = some v' := by
          show (if k = k then some v' else dictLookup rest k) = some v'
          rw [if_pos rfl]
        rw [ih hrest]
        have hstep := dictLookup_concatStep_self env1 (k, v')
        simp only at hstep
        rw [hstep, hnone, hcons]
        cases dictLookup env1 k with
        | none => simp
        | some w => by_cases hv : v' = w <;> simp [hv]
      · have hstep : dictLookup (concatStep env1 (k', v')) k =
            dictLookup env1 k :=
          dictLookup_concatStep_ne env1 (k', v') k hk
        have hcons : dictLookup ((k', v') :: rest) k = dictLookup rest k := by
          show (if k' = k then some v' else dictLookup rest k) = _
          rw [if_neg (fun he => hk he.symm)]
        rw [ih hrest, hstep, hcons]

/-- C1.  `concat_environment(env1, env2)` maps every key shared by both
environments to `env1[key] ++ ":" ++ env2[key]` when the two values differ
and to the unchanged `env1[key]` when they are equal, adds every key present
only in `env2` with `env2`'s value, and keeps `env1`'s value for every key
present only in `env1`.  The hypothesis states that `env2` has the distinct
keys of a Python `dict`. -/
theorem concat_environment_spec (env1 env2 : Dict)
    (h2 : (env2.map Prod.fst).Nodup) (k : String) :
    dictLookup (concat_environment env1 env2) k =
      match dictLookup env1 k, dictLookup env2 k with
      | some w, some v => some (if v = w then w else w ++ ":" ++ v)
      | some w, none => some w
      | none, some v => some v
      | none, none => none :=
  foldl_concatStep_lookup env2 h2 env1 k

/-- Witness for C1 at concrete environments: a shared key with differing
values, a shared key with equal values, a key only in the second environment
and a key only in the first. -/
theorem concat_environment_spec_witness :
    ([("PATH", "b"), ("HOME", "h")].map
        (Prod.fst (α := String) (β := String))).Nodup ∧
    dictLookup (concat_environment [("PATH", "a"), ("X", "x"), ("HOME", "h")]
        [("PATH", "b"), ("HOME", "h")]) "PATH" = some "a:b" ∧
    dictLookup (concat_environment [("PATH", "a"), ("X", "x"), ("HOME", "h")]
        [("PATH", "b"), ("HOME", "h")]) "HOME" = some "h" ∧
    dictLookup (concat_environment [("PATH", "a"), ("X", "x"), ("HOME", "h")]
        [("PATH", "b"), ("HOME", "h")]) "X" = some "x" := by
  refine ⟨by decide, ?_, ?_, ?_⟩ <;>
    rw [concat_environment_spec _ _ (by decide)] <;> decide

theorem heap_getD_set_self (h : Heap) (r : Nat) (x : Dict)
    (hr : r < h.length) : (h.set r x).getD r [] = x := by
  simp [List.getD_eq_getElem?_getD, List.getElem?_set_self, hr]

theorem heap_getD_set_ne (h : Heap) (r r' : Nat) (x : Dict)
    (hne : r' ≠ r) : (h.set r x).getD r' [] = h.getD r' [] := by
  simp [List.getD_eq_getElem?_getD, List.getElem?_set_ne (Ne.symm hne)]

/-- The write-through-the-alias loop of `concat_environment` only ever writes
cell `r`, and leaves there exactly the pure fold of the loop body. -/
theorem concatFold_heap (l : List (String × String)) (h : Heap) (r : Nat)
    (hr : r < h.length) :
    (l.foldl (fun hp kv => hp.set r (concatStep (hp.getD r []) kv)) h).getD r []
        = l.foldl concatStep (h.getD r []) ∧
      (∀ r', r' ≠ r →
        (l.foldl (fun hp kv => hp.set r (concatStep (hp.getD r []) kv)) h).getD r' []
          = h.getD r' []) ∧
      (l.foldl (fun hp kv => hp.set r (concatStep (hp.getD r []) kv)) h).length
        = h.length := by
  induction l generalizing h with
  | nil => exact ⟨rfl, fun _ _ => rfl, rfl⟩
  | cons kv rest ih =>
      simp only [List.foldl_cons]
      have hr' : r < (h.set r (concatStep (h.getD r []) kv)).length := by
        rw [List.length_set]; exact hr
      obtain ⟨ha, hb, hc⟩ := ih (h.set r (concatStep (h.getD r []) kv)) hr'
      refine ⟨?_, ?_, ?_⟩
      · rw [ha, heap_getD_set_self h r _ hr]
      · intro r' hne
        rw [hb r' hne, heap_getD_set_ne h r r' _ hne]
      · rw [hc, List.length_set]

/-- C9.  `concat_environment` mutates its first argument in place and
returns that same dictionary object: at the heap level, with `r1` and `r2`
references to two distinct live `dict` cells, the returned reference is `r1`
itself, cell `r1` afterwards holds the merged bindings
(`concat_environment` as a value-level function), cell `r2` is unchanged,
and no cell other than `r1` is written. -/
theorem concat_environment_in_place (h : Heap) (r1 r2 : Nat)
    (hne : r1 ≠ r2) (h1 : r1 < h.length) :
    (concat_environment_impl h r1 r2).1 = r1 ∧
    (concat_environment_impl h r1 r2).2.getD r1 [] =
      concat_environment (h.getD r1 []) (h.getD r2 []) ∧
    (concat_environment_impl h r1 r2).2.getD r2 [] = h.getD r2 [] ∧
    ∀ r', r' ≠ r1 → (concat_environment_impl h r1 r2).2.getD r' [] =
      h.getD r' [] := by
  obtain ⟨ha, hb, _⟩ := concatFold_heap (h.getD r2 []) h r1 h1
  exact ⟨rfl, ha, hb r2 (Ne.symm hne), fun r' hr' => hb r' hr'⟩

/-- Witness for C9 at a concrete heap holding two environments. -/
theorem concat_environment_in_place_witness :
    (concat_environment_impl [[("A", "1")], [("A", "2"), ("B", "3")]] 0 1).2.getD 0 []
      = [("A", "1:2"), ("B", "3")] := by
  have h := concat_environment_in_place [[("A", "1")], [("A", "2"), ("B", "3")]]
    0 1 (by decide) (by decide)
  rw [h.2.1]
  decide

/-! ### The `environment` printenv parser (`pyfreesurfer/configuration.py`,
lines 52–65) -/

/-- The apostrophe character removed by `line.replace("'", "")`. -/
def aposChar : Char := Char.ofNat 39

/-- The newline character (`os.linesep` on Linux is `"\n"`). -/
def nlChar : Char := Char.ofNat 10

/-- Python's `\w` on ASCII input: a letter, a digit or an underscore. -/
def isWordChar (c : Char) : Bool := c.isAlphanum || c = '_'

/-- Python's `\s` on ASCII input: space, tab, newline, CR, FF or VT; `\S`
is its negation. -/
def isPySpace (c : Char) : Bool :=
  c = ' ' || c = Char.ofNat 9 || c = Char.ofNat 10 || c = Char.ofNat 13 ||
    c = Char.ofNat 12 || c = Char.ofNat 11

/-- `line.replace("export ", "")`: remove every occurrence of `"export "`,
scanning left to right and continuing after each removed occurrence. -/
def stripExportOcc : List Char → List Char
  | 'e' :: 'x' :: 'p' :: 'o' :: 'r' :: 't' :: ' ' :: rest => stripExportOcc rest
  | c :: rest => c :: stripExportOcc rest
  | [] => []

/-- The per-line preprocessing of `environment`: lines starting with
`"export"` get `"export "` occurrences removed and apostrophes stripped
(`line.replace("export ", "").replace("'", "")`); other lines pass through. -/
def processLine (line : List Char) : List Char :=
  if ("export".toList).isPrefixOf line then
    (stripExportOcc line).filter (fun c => c ≠ aposChar)
  else line

/-- `re.match(r"^(\w+)=(\S*)$", line)` on a line that contains no newline
(`re`'s `\w+` is greedy and `=` is not a word character, so a match splits
the line at its first `=`): the pair of captured groups when the line
matches, `none` otherwise. -/
def matchNameValue (line : List Char) : Option (String × String) :=
  let name := line.takeWhile isWordChar
  match line.dropWhile isWordChar with
  | '=' :: value =>
      if !name.isEmpty && value.all (fun c => !isPySpace c) then
        some (String.mk name, String.mk value)
      else none
  | _ => none

/-- The loop body of `environment` for one output line: preprocess, match,
and bind the captured groups unless the name is `PWD`. -/
def envParseStep (env : Dict) (line : List Char) : Dict :=
  match matchNameValue (processLine line) with
  | some nv => if nv.1 ≠ "PWD" then dictSet env nv.1 nv.2 else env
  | none => env

/-- The parsing loop of `environment` over the printenv output lines
(`stdout.split(os.linesep)`), starting from the empty dict. -/
def parseLines (lines : List (List Char)) : Dict :=
  lines.foldl envParseStep []

/-- Python `s.split(sep)` for a one-character separator: cut at every
occurrence, keeping empty pieces (`"".split(sep)` is `[""]`). -/
def splitOnChar (sep : Char) : List Char → List (List Char)
  | [] => [[]]
  | c :: rest =>
      let r := splitOnChar sep rest
      if c = sep then [] :: r
      else
        match r with
        | [] => [[c]]
        | l :: ls => (c :: l) :: ls

/-- `environment(sh_file, env)` after the subshell has produced `stdout`:
split on `os.linesep` (`"\n"` on Linux) and run the parsing loop
(`pyfreesurfer/configuration.py`, lines 52–65). -/
def environment (stdout : String) : Dict :=
  parseLines (splitOnChar nlChar stdout.toList)

/-- The parser that the specification describes, written from the spec's
words for comparison: bind exactly the lines that match `NAME=value` as
they stand, `PWD` excluded, with no preprocessing of `export` lines. -/
def claimedEnvBindings (lines : List (List Char)) : Dict :=
  lines.foldl
    (fun env line =>
      match matchNameValue line with
      | some nv => if nv.1 ≠ "PWD" then dictSet env nv.1 nv.2 else env
      | none => env) []

/-- The binding a single output line contributes for `name`: its captured
value when the processed line matches `NAME=value` with that name. -/
def lineBinding (name : String) (line : List Char) : Option String :=
  match matchNameValue (processLine line) with
  | some nv => if nv.1 = name then some nv.2 else none
  | none => none

/-- The value of the last output line binding `name`, if any. -/
def lastMatchValue (lines : List (List Char)) (name : String) : Option String :=
  lines.foldl
    (fun acc line =>
      match lineBinding name line with
      | some v => some v
      | none => acc) none

/-- Folding an override step keeps the last produced value, whatever the
start. -/
theorem foldl_override (g : List Char → Option String)
    (lines : List (List Char)) (a : Option String) :
    lines.foldl (fun acc line =>
        match g line with | some v => some v | none => acc) a =
      match lines.foldl (fun acc line =>
          match g line with | some v => some v | none => acc) none with
      | some v => some v
      | none => a := by
  induction lines generalizing a with
  | nil => rfl
  | cons l rest ih =>
      simp only [List.foldl_cons]
      rw [ih (match g l with | some v => some v | none => a),
        ih (match g l with | some v => some v | none => none)]
      cases rest.foldl (fun acc line =>
          match g line with | some v => some v | none => acc) none <;>
        cases g l <;> rfl

theorem lastMatchValue_cons (l : List Char) (rest : List (List Char))
    (name : String) :
    lastMatchValue (l :: rest) name =
      match lastMatchValue rest name with
      | some v => some v
      | none => lineBinding name l := by
  unfold lastMatchValue
  simp only [List.foldl_cons]
  rw [foldl_override (lineBinding name) rest]
  cases rest.foldl (fun acc line =>
      match lineBinding name line with | some v => some v | none => acc)
      none <;> cases hb : lineBinding name l <;> simp [hb]

/-- One parser step never touches the `PWD` key. -/
theorem envParseStep_PWD (env : Dict) (l : List Char) :
    dictLookup (envParseStep env l) "PWD" = dictLookup env "PWD" := by
  unfold envParseStep
  cases hm : matchNameValue (processLine l) with
  | none => rfl
  | some nv =>
      by_cases hp : nv.1 ≠ "PWD"
      · simp only [if_pos hp]
        exact dictLookup_dictSet_ne env nv.1 nv.2 "PWD" (fun h => hp h.symm)
      · simp only [if_neg hp]

/-- One parser step, seen through a lookup at `name ≠ "PWD"`. -/
theorem envParseStep_lookup (env : Dict) (l : List Char) (name : String)
    (hname : name ≠ "PWD") :
    dictLookup (envParseStep env l) name =
      match lineBinding name l with
      | some v => some v
      | none => dictLookup env name := by
  unfold envParseStep lineBinding
  cases hm : matchNameValue (processLine l) with
  | none => rfl
  | some nv =>
      by_cases hq : nv.1 = name
      · subst hq
        simp only [if_pos hname, if_pos rfl]
        exact dictLookup_dictSet_self env nv.1 nv.2
      · simp only [if_neg hq]
        by_cases hp : nv.1 ≠ "PWD"
        · simp only [if_pos hp]
          exact dictLookup_dictSet_ne env nv.1 nv.2 name (Ne.symm hq)
        · simp only [if_neg hp]

theorem parseFold_PWD (lines : List (List Char)) (env : Dict) :
    dictLookup (lines.foldl envParseStep env) "PWD" = dictLookup env "PWD" := by
  induction lines generalizing env with
  | nil => rfl
  | cons l rest ih =>
      simp only [List.foldl_cons]
      rw [ih (envParseStep env l), envParseStep_PWD]

theorem parseFold_lookup (name : String) (hname : name ≠ "PWD")
    (lines : List (List Char)) (env : Dict) :
    dictLookup (lines.foldl envParseStep env) name =
      match lastMatchValue lines name with
      | some v => some v
      | none => dictLookup env name := by
  induction lines generalizing env with
  | nil => rfl
  | cons l rest ih =>
      simp only [List.foldl_cons]
      rw [ih (envParseStep env l), lastMatchValue_cons,
        envParseStep_lookup env l name hname]
      cases lastMatchValue rest name <;> cases hb : lineBinding name l <;>
        simp [hb]

/-- C5 (amended).  The parser of `environment` binds, for every name other
than `PWD`, the value captured on the last output line that — after the
`export`-line preprocessing (removal of `"export "` occurrences and of
apostrophes on lines starting with `"export"`) — matches `NAME=value`
(`NAME` a word, `value` without whitespace); it never binds `PWD`, and
lines whose processed form does not match contribute no binding.  The
hypothesis restricts to newline-free lines, which is what the split of a
printenv output produces. -/
theorem environment_lookup_spec (lines : List (List Char))
    (hnl : ∀ l ∈ lines, nlChar ∉ l) (name : String) :
    dictLookup (parseLines lines) name =
      if name = "PWD" then none else lastMatchValue lines name := by
  by_cases h : name = "PWD"
  · subst h
    rw [if_pos rfl]
    exact parseFold_PWD lines []
  · rw [if_neg h]
    unfold parseLines
    rw [parseFold_lookup name h lines []]
    cases lastMatchValue lines name <;> rfl

/-- Witness for C5 (amended) at a concrete output: a plain binding, an
`export` line, a `PWD` line and a non-matching line. -/
theorem environment_lookup_spec_witness :
    dictLookup (parseLines ["PATH=/usr/bin".toList, "export FOO=bar".toList,
        "PWD=/home".toList, "bad line".toList]) "FOO" =
      if "FOO" = "PWD" then none
      else lastMatchValue ["PATH=/usr/bin".toList, "export FOO=bar".toList,
        "PWD=/home".toList, "bad line".toList] "FOO" :=
  environment_lookup_spec
    ["PATH=/usr/bin".toList, "export FOO=bar".toList, "PWD=/home".toList,
      "bad line".toList] (by decide) "FOO"

/-- C5 counterexample.  The output consisting of the single line
`export FOO=bar` does not match `NAME=value` — so under the claim it
contributes no binding — yet `environment` returns the binding
`FOO ↦ bar`, because the code first strips the `"export "` occurrence. -/
theorem environment_export_counterexample :
    matchNameValue ("export FOO=bar".toList) = none ∧
    environment "export FOO=bar" = [("FOO", "bar")] ∧
    claimedEnvBindings [("export FOO=bar".toList)] = [] := by
  refine ⟨by decide, by decide, by decide⟩

/-! ### `FSWrapper.__call__` (`pyfreesurfer/wrapper.py`, lines 85–110) and
the exception messages (`pyfreesurfer/exceptions.py`) -/

/-- Outcome of one `subprocess.Popen(...).communicate()`. -/
structure ProcResult where
  stdout : String
  stderr : String
  returncode : Int
deriving DecidableEq

/-- The exceptions a wrapper call can raise. -/
inductive FSError where
  | configuration (message : String)
  | runtime (message : String)
deriving DecidableEq

/-- Message built by `FreeSurferRuntimeError.__init__`
(`pyfreesurfer/exceptions.py`, lines 22–29). -/
def freeSurferRuntimeErrorMessage (algorithm_name parameters error : String) :
    String :=
  "FreeSurfer call for '" ++ algorithm_name ++ "' failed, with parameters: '"
    ++ parameters ++ "'.Error:: " ++ error ++ "."

/-- Message built by `FreeSurferConfigurationError.__init__`
(`pyfreesurfer/exceptions.py`, lines 32–37). -/
def freeSurferConfigurationErrorMessage (command_name : String) : String :=
  "FreeSurfer command '" ++ command_name ++ "' not found."

/-- `FSWrapper.__call__`: run `which` on `cmd[0]` (result `whichRes`), raise
`FreeSurferConfigurationError` on a non-zero exit; otherwise run `cmd`
(result `execRes`), record its stdout/stderr/exit code, and raise
`FreeSurferRuntimeError` with the command name, the space-joined arguments
and `stderr + stdout` when the exit code is non-zero. -/
def FSWrapper_call (cmd : List String) (whichRes execRes : ProcResult) :
    Except FSError (String × String × Int) :=
  if whichRes.returncode ≠ 0 then
    .error (.configuration (freeSurferConfigurationErrorMessage (cmd.headD "")))
  else if execRes.returncode ≠ 0 then
    .error (.runtime (freeSurferRuntimeErrorMessage (cmd.headD "")
      (String.intercalate " " cmd.tail) (execRes.stderr ++ execRes.stdout)))
  else
    .ok (execRes.stdout, execRes.stderr, execRes.returncode)

/-- C2.  Whenever the external invocation exits with a non-zero code (the
executable having been resolved), `FSWrapper.__call__` raises a
`FreeSurferRuntimeError` whose message carries the command name, the
space-joined arguments and the captured stderr concatenated with the
captured stdout, stderr first; the call never returns normally. -/
theorem FSWrapper_call_nonzero_raises (prog : String) (args : List String)
    (whichRes execRes : ProcResult) (hwhich : whichRes.returncode = 0)
    (hexec : execRes.returncode ≠ 0) :
    FSWrapper_call (prog :: args) whichRes execRes =
      Except.error (FSError.runtime (freeSurferRuntimeErrorMessage prog
        (String.intercalate " " args) (execRes.stderr ++ execRes.stdout))) := by
  unfold FSWrapper_call
  simp [hwhich, hexec]

/-- Witness for C2 at a concrete failing command. -/
theorem FSWrapper_call_nonzero_raises_witness :
    FSWrapper_call ["mri_convert", "in.mgz", "out.nii"]
        ⟨"/usr/bin/mri_convert", "", 0⟩ ⟨"partial out", "boom", 1⟩ =
      Except.error (FSError.runtime (freeSurferRuntimeErrorMessage
        "mri_convert" (String.intercalate " " ["in.mgz", "out.nii"])
        ("boom" ++ "partial out"))) :=
  FSWrapper_call_nonzero_raises "mri_convert" ["in.mgz", "out.nii"]
    ⟨"/usr/bin/mri_convert", "", 0⟩ ⟨"partial out", "boom", 1⟩ rfl (by decide)

/-! ### `HCPWrapper.__call__` (`pyfreesurfer/wrapper.py`, lines 222–260) -/

/-- Python `l[1::2]` restricted to a tail: every other element starting
from the first. -/
def everyOther {α : Type} : List α → List α
  | [] => []
  | [x] => [x]
  | x :: _ :: rest => x :: everyOther rest

/-- The formatting loop of `HCPWrapper.__call__`:

    for indx, key in enumerate(cmd[1::2]):
        value = cmd[2 * indx + 2]
        fcmd.append("{0}={1}".format(key, value))

`none` models the `IndexError` raised when `cmd[2 * indx + 2]` does not
exist (an ill-paired command). -/
def fmtLoop (cmd : List String) : Nat → List String → Option (List String)
  | _, [] => some []
  | indx, key :: restKeys =>
      match cmd.get? (2 * indx + 2) with
      | some value =>
          match fmtLoop cmd (indx + 1) restKeys with
          | some rest => some ((key ++ "=" ++ value) :: rest)
          | none => none
      | none => none

/-- `fcmd` as built by `HCPWrapper.__call__`: the program name followed by
one `key=value` token per key of `cmd[1::2]`. -/
def formatHCPCmd (cmd : List String) : Option (List String) :=
  match fmtLoop cmd 0 (everyOther (cmd.drop 1)) with
  | some rest => some (cmd.headD "" :: rest)
  | none => none

/-- The argument vectors `HCPWrapper.__call__` hands to `subprocess.Popen`,
in order: first the `which` resolution of the unformatted `cmd[0]`, then —
if that resolution succeeded and the formatting loop raised no
`IndexError` — the reformatted vector `fcmd`. -/
def HCPWrapper_call_spawns (cmd : List String) (whichExit : Int) :
    List (List String) :=
  if whichExit ≠ 0 then [["which", cmd.headD ""]]
  else
    match formatHCPCmd cmd with
    | some fcmd => [["which", cmd.headD ""], fcmd]
    | none => [["which", cmd.headD ""]]

/-- `[program, key1, value1, ..., keyN, valueN]`. -/
def interleavePairs (pairs : List (String × String)) : List String :=
  pairs.foldr (fun kv acc => kv.1 :: kv.2 :: acc) []

theorem everyOther_interleavePairs (pairs : List (String × String)) :
    everyOther (interleavePairs pairs) = pairs.map Prod.fst := by
  induction pairs with
  | nil => rfl
  | cons kv rest ih =>
      show everyOther (kv.1 :: kv.2 :: interleavePairs rest) = _
      rw [everyOther, ih, List.map_cons]

theorem interleavePairs_get_snd (pairs : List (String × String)) (j : Nat) :
    (interleavePairs pairs).get? (2 * j + 1) = (pairs.get? j).map Prod.snd := by
  induction pairs generalizing j with
  | nil => rfl
  | cons kv rest ih =>
      cases j with
      | zero => rfl
      | succ j' =>
          show (kv.1 :: kv.2 :: interleavePairs rest).get? (2 * (j' + 1) + 1) = _
          have harith : 2 * (j' + 1) + 1 = (2 * j' + 1) + 2 := by ring
          rw [harith]
          exact ih j'

theorem fmtLoop_spec (cmd : List String) (suffix : List (String × String))
    (i : Nat)
    (h : ∀ j, j < suffix.length →
      cmd.get? (2 * (i + j) + 2) = (suffix.get? j).map Prod.snd) :
    fmtLoop cmd i (suffix.map Prod.fst) =
      some (suffix.map (fun p => p.1 ++ "=" ++ p.2)) := by
  induction suffix generalizing i with
  | nil => rfl
  | cons kv rest ih =>
      have h0 := h 0 (Nat.succ_pos _)
      simp only [Nat.add_zero, List.get?] at h0
      show fmtLoop cmd i (kv.1 :: rest.map Prod.fst) = _
      rw [fmtLoop, h0]
      have hrec := ih (i + 1) (fun j hj => by
        have := h (j + 1) (Nat.succ_lt_succ hj)
        have harith : 2 * (i + (j + 1)) + 2 = 2 * ((i + 1) + j) + 2 := by ring
        rw [harith] at this
        simpa using this)
      rw [hrec]
      rfl

/-- C10.  For a command of the form
`[program, key1, value1, ..., keyN, valueN]`, `HCPWrapper.__call__` checks
the unformatted `program` with `which` and then executes the reformatted
vector `[program, "key1=value1", ..., "keyN=valueN"]`, pairing each
odd-positioned argument with its successor. -/
theorem HCPWrapper_call_format (prog : String)
    (pairs : List (String × String)) :
    HCPWrapper_call_spawns (prog :: interleavePairs pairs) 0 =
      [["which", prog],
        prog :: pairs.map (fun p => p.1 ++ "=" ++ p.2)] := by
  have hfmt : formatHCPCmd (prog :: interleavePairs pairs) =
      some (prog :: pairs.map (fun p => p.1 ++ "=" ++ p.2)) := by
    unfold formatHCPCmd
    have hdrop : (prog :: interleavePairs pairs).drop 1 = interleavePairs pairs :=
      rfl
    rw [hdrop, everyOther_interleavePairs]
    rw [fmtLoop_spec (prog :: interleavePairs pairs) pairs 0 (fun j hj => by
      have harith : 2 * (0 + j) + 2 = (2 * j + 1) + 1 := by ring
      rw [harith]
      show (interleavePairs pairs).get? (2 * j + 1) = _
      exact interleavePairs_get_snd pairs j)]
    rfl
  unfold HCPWrapper_call_spawns
  rw [hfmt]
  rfl

/-! ### Input validation in `pyfreesurfer/conversions/surfconvs.py`

Each `*_checks` definition embeds the validation prelude of the
corresponding wrapping function.  In the source, every `FSWrapper`
construction and call occurs strictly after this prelude, so `.error msg`
models a `ValueError(msg)` raised before any external process is spawned. -/

/-- The file-system facts the preludes consult (`os.path.isfile`,
`os.path.isdir`). -/
structure FileSys where
  isfile : String → Bool
  isdir : String → Bool

/-- `os.path.join` for relative, separator-free components. -/
def pathJoin (a b : String) : String := a ++ "/" ++ b

def hemiValueErrorMessage (hemi : String) : String :=
  "'" ++ hemi ++ "' is not a valid hemisphere value which must be in " ++
    "['lh', 'rh']"

def fileValueErrorMessage (path : String) : String :=
  "'" ++ path ++ "' is not a valid input file."

def dirValueErrorMessage (path : String) : String :=
  "'" ++ path ++ "' is not a valid directory."

def icoOrderValueErrorMessage (ico : Int) : String :=
  "'Ico order '" ++ toString ico ++ "' is not in 0-7 range."

def surfaceValueErrorMessage (s : String) : String :=
  "'" ++ s ++ "' is not a valid surface value which must be in " ++
    "['white', 'pial']"

/-- Python `str` of a list of ints, as interpolated by `format(orders)`. -/
def pyIntListRepr (orders : List Int) : String :=
  "[" ++ String.intercalate ", " (orders.map toString) ++ "]"

def ordersValueErrorMessage (orders : List Int) : String :=
  "'At least one value in " ++ pyIntListRepr orders ++ " is not in 0-7 range."

/-- Validation prelude of `interhemi_surfreg` (`surfconvs.py`, lines
74–81): hemisphere first, then the subject directory and the destination
directory. -/
def interhemi_surfreg_checks (fs : FileSys) (hemi outdir fsdir sid : String) :
    Except String Unit :=
  if ¬ (hemi = "lh" ∨ hemi = "rh") then .error (hemiValueErrorMessage hemi)
  else if fs.isdir (pathJoin fsdir sid) = false then
    .error (dirValueErrorMessage (pathJoin fsdir sid))
  else if fs.isdir outdir = false then .error (dirValueErrorMessage outdir)
  else .ok ()

/-- Validation prelude of `midgray_surface` (`surfconvs.py`, lines
160–172): the hemisphere-named white surface file, then the subjects
directory, then the hemisphere. -/
def midgray_surface_checks (fs : FileSys) (hemi outdir fsdir sid : String) :
    Except String Unit :=
  let white_file :=
    pathJoin (pathJoin (pathJoin fsdir sid) "surf") (hemi ++ ".white")
  if fs.isfile white_file = false then .error (fileValueErrorMessage white_file)
  else if fs.isdir fsdir = false then .error (dirValueErrorMessage fsdir)
  else if ¬ (hemi = "lh" ∨ hemi = "rh") then .error (hemiValueErrorMessage hemi)
  else .ok ()

/-- Validation prelude of `mri_surf2surf` (`surfconvs.py`, lines 295–307):
input surface file, subjects directory, hemisphere, icosahedron order. -/
def mri_surf2surf_checks (fs : FileSys)
    (hemi input_surface_file output_surface_file : String) (ico_order : Int)
    (fsdir sid : String) : Except String Unit :=
  if fs.isfile input_surface_file = false then
    .error (fileValueErrorMessage input_surface_file)
  else if fs.isdir fsdir = false then .error (dirValueErrorMessage fsdir)
  else if ¬ (hemi = "lh" ∨ hemi = "rh") then .error (hemiValueErrorMessage hemi)
  else if ico_order < 0 ∨ ico_order > 7 then
    .error (icoOrderValueErrorMessage ico_order)
  else .ok ()

/-- Validation prelude of `resample_cortical_surface` (`surfconvs.py`,
lines 378–385): the two directories, the surface name, then
`numpy.asarray(orders).min() < 0 or numpy.asarray(orders).max() > 7` (numpy
raises a `ValueError` itself on an empty array). -/
def resample_cortical_surface_checks (fs : FileSys) (fsdir outdir : String)
    (orders : List Int) (surface_name : String) : Except String Unit :=
  if fs.isdir fsdir = false then .error (dirValueErrorMessage fsdir)
  else if fs.isdir outdir = false then .error (dirValueErrorMessage outdir)
  else if ¬ (surface_name = "white" ∨ surface_name = "pial" ∨
      surface_name = "graymid") then
    .error (surfaceValueErrorMessage surface_name)
  else
    match orders with
    | [] =>
        .error
          "zero-size array to reduction operation minimum which has no identity"
    | o :: rest =>
        if rest.foldl min o < 0 ∨ rest.foldl max o > 7 then
          .error (ordersValueErrorMessage (o :: rest))
        else .ok ()

theorem foldl_min_le_init (rest : List Int) (o : Int) :
    rest.foldl min o ≤ o := by
  induction rest generalizing o with
  | nil => exact le_refl o
  | cons r rs ih =>
      exact le_trans (ih (min o r)) (min_le_left o r)

theorem foldl_min_le_mem (rest : List Int) (o x : Int) (hx : x ∈ rest) :
    rest.foldl min o ≤ x := by
  induction rest generalizing o with
  | nil => cases hx
  | cons r rs ih =>
      rcases List.mem_cons.mp hx with h | h
      · subst h
        exact le_trans (foldl_min_le_init rs (min o x)) (min_le_right o x)
      · exact ih (min o r) h

theorem foldl_max_ge_init (rest : List Int) (o : Int) :
    o ≤ rest.foldl max o := by
  induction rest generalizing o with
  | nil => exact le_refl o
  | cons r rs ih =>
      exact le_trans (le_max_left o r) (ih (max o r))

theorem foldl_max_ge_mem (rest : List Int) (o x : Int) (hx : x ∈ rest) :
    x ≤ rest.foldl max o := by
  induction rest generalizing o with
  | nil => cases hx
  | cons r rs ih =>
      rcases List.mem_cons.mp hx with h | h
      · subst h
        exact le_trans (le_max_right o x) (foldl_max_ge_init rs (max o x))
      · exact ih (max o r) h

/-- C3.  For every hemisphere argument outside `{"lh", "rh"}` — the other
path preconditions being satisfied — `interhemi_surfreg`,
`midgray_surface` and `mri_surf2surf` raise a `ValueError` naming the
hemisphere from their validation prelude, before any external process is
spawned. -/
theorem hemisphere_validation (fs : FileSys) (hemi : String)
    (hhemi : hemi ≠ "lh" ∧ hemi ≠ "rh") :
    (∀ outdir fsdir sid,
      interhemi_surfreg_checks fs hemi outdir fsdir sid =
        .error (hemiValueErrorMessage hemi)) ∧
    (∀ outdir fsdir sid,
      fs.isfile (pathJoin (pathJoin (pathJoin fsdir sid) "surf")
        (hemi ++ ".white")) = true →
      fs.isdir fsdir = true →
      midgray_surface_checks fs hemi outdir fsdir sid =
        .error (hemiValueErrorMessage hemi)) ∧
    (∀ input_surface_file output_surface_file ico_order fsdir sid,
      fs.isfile input_surface_file = true →
      fs.isdir fsdir = true →
      mri_surf2surf_checks fs hemi input_surface_file output_surface_file
          ico_order fsdir sid =
        .error (hemiValueErrorMessage hemi)) := by
  have hne : ¬ (hemi = "lh" ∨ hemi = "rh") := by
    rintro (h | h)
    · exact hhemi.1 h
    · exact hhemi.2 h
  refine ⟨fun outdir fsdir sid => ?_,
    fun outdir fsdir sid hfile hdir => ?_,
    fun input_surface_file output_surface_file ico_order fsdir sid hfile hdir => ?_⟩
  · unfold interhemi_surfreg_checks
    rw [if_pos hne]
  · unfold midgray_surface_checks
    simp only [hfile, hdir]
    rw [if_neg (by simp), if_neg (by simp), if_pos hne]
  · unfold mri_surf2surf_checks
    simp only [hfile, hdir]
    rw [if_neg (by simp), if_neg (by simp), if_pos hne]

/-- A file system on which every path precondition holds, for the
witnesses. -/
def allPathsFS : FileSys := ⟨fun _ => true, fun _ => true⟩

/-- Witness for C3: the invalid hemisphere `"xx"` with all path
preconditions satisfied, on all three wrapping functions. -/
theorem hemisphere_validation_witness :
    interhemi_surfreg_checks allPathsFS "xx" "/out" "/fs" "s1" =
      .error (hemiValueErrorMessage "xx") ∧
    midgray_surface_checks allPathsFS "xx" "/out" "/fs" "s1" =
      .error (hemiValueErrorMessage "xx") ∧
    mri_surf2surf_checks allPathsFS "xx" "/in.mgz" "/o.mgz" 4 "/fs" "s1" =
      .error (hemiValueErrorMessage "xx") := by
  have h := hemisphere_validation allPathsFS "xx" (by decide)
  exact ⟨h.1 "/out" "/fs" "s1", h.2.1 "/out" "/fs" "s1" rfl rfl,
    h.2.2 "/in.mgz" "/o.mgz" 4 "/fs" "s1" rfl rfl⟩

/-- C4.  For every icosahedron order outside `[0, 7]` — the other
preconditions being satisfied — `mri_surf2surf` raises a `ValueError` from
its validation prelude before any external process is spawned, and
`resample_cortical_surface` raises a `ValueError` whenever such an order is
an element of its `orders` list. -/
theorem ico_order_validation (fs : FileSys) (ico : Int)
    (hico : ico < 0 ∨ ico > 7) :
    (∀ hemi input_surface_file output_surface_file fsdir sid,
      (hemi = "lh" ∨ hemi = "rh") →
      fs.isfile input_surface_file = true →
      fs.isdir fsdir = true →
      mri_surf2surf_checks fs hemi input_surface_file output_surface_file
          ico fsdir sid =
        .error (icoOrderValueErrorMessage ico)) ∧
    (∀ fsdir outdir orders surface_name,
      fs.isdir fsdir = true →
      fs.isdir outdir = true →
      (surface_name = "white" ∨ surface_name = "pial" ∨
        surface_name = "graymid") →
      ico ∈ orders →
      resample_cortical_surface_checks fs fsdir outdir orders surface_name =
        .error (ordersValueErrorMessage orders)) := by
  constructor
  · intro hemi input_surface_file output_surface_file fsdir sid hhemi hfile hdir
    unfold mri_surf2surf_checks
    simp only [hfile, hdir]
    rw [if_neg (by simp), if_neg (by simp), if_neg (by simp [hhemi]),
      if_pos hico]
  · intro fsdir outdir orders surface_name hdir1 hdir2 hsurf hmem
    unfold resample_cortical_surface_checks
    simp only [hdir1, hdir2]
    rw [if_neg (by simp), if_neg (by simp), if_neg (by simp [hsurf])]
    cases orders with
    | nil => cases hmem
    | cons o rest =>
        have hcond : rest.foldl min o < 0 ∨ rest.foldl max o > 7 := by
          rcases hico with hlt | hgt
          · left
            rcases List.mem_cons.mp hmem with h | h
            · exact lt_of_le_of_lt (h ▸ foldl_min_le_init rest o) hlt
            · exact lt_of_le_of_lt (foldl_min_le_mem rest o ico h) hlt
          · right
            rcases List.mem_cons.mp hmem with h | h
            · exact lt_of_lt_of_le hgt (h ▸ foldl_max_ge_init rest o)
            · exact lt_of_lt_of_le hgt (foldl_max_ge_mem rest o ico h)
        show (if rest.foldl min o < 0 ∨ rest.foldl max o > 7 then
            Except.error (ordersValueErrorMessage (o :: rest))
          else Except.ok ()) = Except.error (ordersValueErrorMessage (o :: rest))
        rw [if_pos hcond]

/-- Witness for C4: order 8 on `mri_surf2surf` and an `orders` list
containing 8 on `resample_cortical_surface`, preconditions satisfied. -/
theorem ico_order_validation_witness :
    mri_surf2surf_checks allPathsFS "lh" "/in.mgz" "/o.mgz" 8 "/fs" "s1" =
      .error (icoOrderValueErrorMessage 8) ∧
    resample_cortical_surface_checks allPathsFS "/fs" "/out" [4, 8] "white" =
      .error (ordersValueErrorMessage [4, 8]) := by
  have h := ico_order_validation allPathsFS 8 (by decide)
  exact ⟨h.1 "lh" "/in.mgz" "/o.mgz" "/fs" "s1" (Or.inl rfl) rfl rfl,
    h.2 "/fs" "/out" [4, 8] "white" rfl rfl (Or.inl rfl) (by decide)⟩

/-! ### `FSWrapper._environment` and `FSWrapper._freesurfer_version_check`
(`pyfreesurfer/wrapper.py`, lines 112–185) -/

/-- The supported releases (`pyfreesurfer/info.py`, line 25). -/
def FREESURFER_RELEASE : List String := ["5.3.0", "6.0.0"]

/-- The observable effects the two methods can perform, recorded in order:
running the subshell that parses the `sh` configuration file, opening the
`build-stamp.txt` version file, and emitting the `warnings.warn` for an
untested version. -/
inductive FSAction where
  | parseConfig
  | readBuildStamp
  | warnVersion
deriving DecidableEq

/-- The process state the two methods consult: the parsed configuration
cached in the `FREESURFER_CONFIGURED` environment variable (stored as the
dict that `json.dumps`/`json.loads` round-trips), and `FREESURFER_HOME`
from `os.environ`. -/
structure SysState where
  fsConfigured : Option Dict
  fsHome : Option String
deriving DecidableEq

/-- The files the version check reads. -/
structure FileStore where
  isfile : String → Bool
  readFile : String → String

/-- `re.findall("\d.\d.\d", content)`: non-overlapping matches, scanning
left to right and continuing after each match.  The dots are unescaped in
the source, so the second and fourth characters may be anything but a
newline. -/
def findallVersion : List Char → List String
  | c0 :: c1 :: c2 :: c3 :: c4 :: rest =>
      if c0.isDigit && (c1 ≠ nlChar) && c2.isDigit && (c3 ≠ nlChar) &&
          c4.isDigit then
        String.mk [c0, c1, c2, c3, c4] :: findallVersion rest
      else findallVersion (c1 :: c2 :: c3 :: c4 :: rest)
  | _ => []

/-- `FSWrapper._environment` (`wrapper.py`, lines 112–141): when the
`FREESURFER_CONFIGURED` cache is empty, seed an environment with
`FREESURFER_HOME` when present, run the subshell parse (the oracle
`parseSh`), and store the result in the cache; otherwise load the cache and
spawn nothing.  Returns the environment, the new state and the actions
performed. -/
def FSWrapper_environment (parseSh : String → Dict → Dict) (shfile : String)
    (st : SysState) : Dict × SysState × List FSAction :=
  match st.fsConfigured with
  | none =>
      let seed : Dict :=
        match st.fsHome with
        | some h => [("FREESURFER_HOME", h)]
        | none => []
      let env := parseSh shfile seed
      (env, { st with fsConfigured := some env }, [.parseConfig])
  | some env => (env, st, [])

def versionDetectErrorMessage (version_file : String) : String :=
  "Can't detect 'FREESURFER' version from version file '" ++ version_file ++
    "'. You have not provided a valid configuration file."

def notAValidFileMessage (shfile : String) : String :=
  "'" ++ shfile ++ "' is not a valid file, can't configure FreeSurfer."

/-- `FSWrapper._freesurfer_version_check` (`wrapper.py`, lines 143–185), as
run by every construction of `FSWrapper`: require the configuration file to
exist, obtain the environment through `_environment`, read
`$FREESURFER_HOME/build-stamp.txt`, extract the `\d.\d.\d` matches, raise a
`ValueError` unless there is exactly one, and warn when the extracted
version is not a supported release.  On success returns the environment,
the version, the new state and the actions performed, in order. -/
def FSWrapper_freesurfer_version_check (parseSh : String → Dict → Dict)
    (files : FileStore) (shfile : String) (st : SysState) :
    Except String (Dict × String × SysState × List FSAction) :=
  if files.isfile shfile = true then
    let env := (FSWrapper_environment parseSh shfile st).1
    let st' := (FSWrapper_environment parseSh shfile st).2.1
    let acts0 := (FSWrapper_environment parseSh shfile st).2.2
    match dictLookup env "FREESURFER_HOME" with
    | none => .error "KeyError: 'FREESURFER_HOME'"
    | some home =>
        let version_file := pathJoin home "build-stamp.txt"
        let versions := findallVersion (files.readFile version_file).toList
        if versions.length ≠ 1 then
          .error (versionDetectErrorMessage version_file)
        else
          let version := versions.headD ""
          if version ∈ FREESURFER_RELEASE then
            .ok (env, version, st', acts0 ++ [.readBuildStamp])
          else
            .ok (env, version, st', (acts0 ++ [.readBuildStamp]) ++
              [.warnVersion])
  else .error (notAValidFileMessage shfile)

/-- C6 (amended).  On every construction the version check reads the
build-stamp file, raises a `ValueError` unless the `\d.\d.\d` extraction
finds exactly one match, and warns exactly when the extracted version is
not a supported release; what happens once per process is the parsing of
the configuration file: `_environment` runs the subshell parse only when
the `FREESURFER_CONFIGURED` cache is empty, and reuses the cached
configuration afterwards. -/
theorem fswrapper_version_check_spec (parseSh : String → Dict → Dict)
    (files : FileStore) (shfile : String) (st : SysState) (env : Dict)
    (st' : SysState) (acts0 : List FSAction) (home : String)
    (hfile : files.isfile shfile = true)
    (henv : FSWrapper_environment parseSh shfile st = (env, st', acts0))
    (hhome : dictLookup env "FREESURFER_HOME" = some home) :
    ((findallVersion
        (files.readFile (pathJoin home "build-stamp.txt")).toList).length ≠ 1 →
      FSWrapper_freesurfer_version_check parseSh files shfile st =
        .error (versionDetectErrorMessage (pathJoin home "build-stamp.txt"))) ∧
    (∀ v,
      findallVersion
          (files.readFile (pathJoin home "build-stamp.txt")).toList = [v] →
      FSWrapper_freesurfer_version_check parseSh files shfile st =
        .ok (env, v, st',
          if v ∈ FREESURFER_RELEASE then acts0 ++ [.readBuildStamp]
          else (acts0 ++ [.readBuildStamp]) ++ [.warnVersion])) ∧
    (st.fsConfigured = none → acts0 = [.parseConfig]) ∧
    (∀ e, st.fsConfigured = some e → acts0 = [] ∧ env = e ∧ st' = st) := by
  refine ⟨?_, ?_, ?_, ?_⟩
  · intro hlen
    unfold FSWrapper_freesurfer_version_check
    rw [if_pos hfile]
    simp only [henv]
    rw [hhome]
    simp only [if_pos hlen]
  · intro v hv
    unfold FSWrapper_freesurfer_version_check
    rw [if_pos hfile]
    simp only [henv]
    rw [hhome]
    simp only [hv, List.headD_cons]
    have hlen : ¬ (([v] : List String).length ≠ 1) := by simp
    rw [if_neg hlen]
    by_cases hrel : v ∈ FREESURFER_RELEASE
    · rw [if_pos hrel, if_pos hrel]
    · rw [if_neg hrel, if_neg hrel]
  · intro hnone
    unfold FSWrapper_environment at henv
    rw [hnone] at henv
    injection henv with h1 h23
    injection h23 with h2 h3
    exact h3.symm
  · intro e hsome
    unfold FSWrapper_environment at henv
    rw [hsome] at henv
    injection henv with h1 h23
    injection h23 with h2 h3
    exact ⟨h3.symm, h1.symm, h2.symm⟩

/-- A concrete configuration-parse oracle and file store for the C6
witness and counterexample: the parsed configuration binds
`FREESURFER_HOME`, and the build stamp holds exactly one version, the
supported `5.3.0`. -/
def demoParseSh : String → Dict → Dict :=
  fun _ _ => [("FREESURFER_HOME", "/opt/fs")]

def demoFiles : FileStore :=
  ⟨fun _ => true, fun _ => "freesurfer-linux-centos 5.3.0 stamp"⟩

/-- Witness for C6 (amended): a first construction, cache empty. -/
theorem fswrapper_version_check_spec_witness :
    FSWrapper_freesurfer_version_check demoParseSh demoFiles "/cfg.sh"
        ⟨none, none⟩ =
      Except.ok ([("FREESURFER_HOME", "/opt/fs")], "5.3.0",
        ⟨some [("FREESURFER_HOME", "/opt/fs")], none⟩,
        [FSAction.parseConfig, FSAction.readBuildStamp]) := by
  have h := fswrapper_version_check_spec demoParseSh demoFiles "/cfg.sh"
    ⟨none, none⟩ [("FREESURFER_HOME", "/opt/fs")]
    ⟨some [("FREESURFER_HOME", "/opt/fs")], none⟩ [FSAction.parseConfig]
    "/opt/fs" rfl rfl rfl
  have h2 := (h.2.1) "5.3.0" (by decide)
  rw [h2]
  rfl

/-- C6 counterexample.  The version check is not once-per-process: with the
configuration already cached by a first construction (state
`⟨some env, none⟩`), a second construction still opens and parses the
build-stamp file — `readBuildStamp` is performed again; only the subshell
configuration parse is skipped. -/
theorem fswrapper_version_check_repeat_counterexample :
    FSWrapper_freesurfer_version_check demoParseSh demoFiles "/cfg.sh"
        ⟨none, none⟩ =
      Except.ok ([("FREESURFER_HOME", "/opt/fs")], "5.3.0",
        ⟨some [("FREESURFER_HOME", "/opt/fs")], none⟩,
        [FSAction.parseConfig, FSAction.readBuildStamp]) ∧
    FSWrapper_freesurfer_version_check demoParseSh demoFiles "/cfg.sh"
        ⟨some [("FREESURFER_HOME", "/opt/fs")], none⟩ =
      Except.ok ([("FREESURFER_HOME", "/opt/fs")], "5.3.0",
        ⟨some [("FREESURFER_HOME", "/opt/fs")], none⟩,
        [FSAction.readBuildStamp]) :=
  ⟨rfl, rfl⟩

/-! ### `TriSurface` (`pyfreesurfer/utils/surftools.py`, lines 29–114)

Vertex coordinates are embedded as rationals, triangle index arrays as
integer rows.  `TriSurface.load` is embedded at `annotfile=None`, which the
claim does not involve; file reads go through a `read_geometry` oracle. -/

structure TriSurfaceObj where
  vertices : List (List ℚ)
  triangles : List (List Int)
  labels : List Int
  inflated_vertices : Option (List (List ℚ))
deriving DecidableEq

/-- `TriSurface.__init__` (`surftools.py`, lines 29–54): store the
arguments verbatim, defaulting `labels` to `[0] * vertices.shape[0]`; no
validation of any kind is performed. -/
def TriSurface_init (vertices : List (List ℚ)) (triangles : List (List Int))
    (labels : Option (List Int))
    (inflated_vertices : Option (List (List ℚ))) : TriSurfaceObj :=
  { vertices := vertices
    triangles := triangles
    labels :=
      match labels with
      | none => List.replicate vertices.length 0
      | some ls => ls
    inflated_vertices := inflated_vertices }

def intAbs (z : Int) : Int := if z < 0 then -z else z

/-- One element of `numpy.allclose(a, b)` with the default tolerances:
`|x - y| <= atol + rtol * |y|`, `rtol = 1e-5`, `atol = 1e-8`; for integer
entries this is the scaled integer inequality
`10^8 * |x - y| <= 1 + 10^3 * |y|`. -/
def closeElem (x y : Int) : Bool :=
  100000000 * intAbs (x - y) ≤ 1 + 1000 * intAbs y

/-- `numpy.allclose` on two equally-shaped integer triangle arrays. -/
def allcloseInt (a b : List (List Int)) : Bool :=
  decide (a.length = b.length) &&
    (List.zipWith
      (fun r s => decide (r.length = s.length) &&
        (List.zipWith closeElem r s).all id) a b).all id

def notSameSurfaceMessage (meshfile inflatedmeshpath : String) : String :=
  "'" ++ meshfile ++ "' and '" ++ inflatedmeshpath ++
    "' do not represent the same surface."

/-- The geometry files, behind `nibabel.freesurfer.read_geometry`. -/
structure GeomStore where
  readGeometry : String → List (List ℚ) × List (List Int)

/-- `TriSurface.load` (`surftools.py`, lines 72–114) at `annotfile=None`:
read the base geometry; when an inflated mesh path is given, read it,
raise a `ValueError` when `numpy.allclose` rejects the two triangle
arrays, and otherwise keep the inflated vertices; construct the surface
with the base triangles. -/
def TriSurface_load (gs : GeomStore) (meshfile : String)
    (inflatedmeshpath : Option String) : Except String TriSurfaceObj :=
  match inflatedmeshpath with
  | some p =>
      if allcloseInt (gs.readGeometry meshfile).2 (gs.readGeometry p).2 =
          false then
        .error (notSameSurfaceMessage meshfile p)
      else
        .ok (TriSurface_init (gs.readGeometry meshfile).1
          (gs.readGeometry meshfile).2 none (some (gs.readGeometry p).1))
  | none =>
      .ok (TriSurface_init (gs.readGeometry meshfile).1
        (gs.readGeometry meshfile).2 none none)

/-- The invariant of the claim: every triangle index names a valid vertex
position, and a supplied inflated vertex set has one inflated vertex per
base vertex (the object stores a single triangle array for both). -/
def validTopology (t : TriSurfaceObj) : Prop :=
  (∀ tri ∈ t.triangles, ∀ i ∈ tri, 0 ≤ i ∧ i < t.vertices.length) ∧
  (∀ iv, t.inflated_vertices = some iv → iv.length = t.vertices.length)

/-- C7 counterexample.  `TriSurface.__init__` is a construction path that
performs no validation: with two vertices and a triangle referencing the
nonexistent vertex 5 it returns normally — no `ValueError` — and the
constructed surface violates the triangle-index invariant. -/
theorem TriSurface_init_counterexample :
    ¬ validTopology
      (TriSurface_init [[0, 0, 0], [1, 0, 0]] [[0, 1, 5]] none none) := by
  intro h
  have h5 := (h.1 [0, 1, 5] (by simp [TriSurface_init]) 5 (by simp)).2
  have hlen :
      (TriSurface_init [[0, 0, 0], [1, 0, 0]] [[0, 1, 5]] none
        none).vertices.length = 2 := rfl
  rw [hlen] at h5
  exact absurd h5 (by decide)

/-- C7 (amended).  `__init__` stores its arguments verbatim with no
validation; `load` with an inflated mesh path raises a `ValueError`
exactly when `numpy.allclose` rejects the two triangle arrays (an
approximate comparison, not exact equality), and on success the
constructed surface carries the base file's triangles as the single
topology for both the base and the inflated vertex sets. -/
theorem TriSurface_load_spec (gs : GeomStore) (meshfile p : String) :
    (TriSurface_load gs meshfile (some p) =
        Except.error (notSameSurfaceMessage meshfile p) ↔
      allcloseInt (gs.readGeometry meshfile).2 (gs.readGeometry p).2 =
        false) ∧
    (allcloseInt (gs.readGeometry meshfile).2 (gs.readGeometry p).2 = true →
      TriSurface_load gs meshfile (some p) =
        Except.ok
          { vertices := (gs.readGeometry meshfile).1
            triangles := (gs.readGeometry meshfile).2
            labels :=
              List.replicate (gs.readGeometry meshfile).1.length 0
            inflated_vertices := some (gs.readGeometry p).1 }) ∧
    (∀ v tr l iv,
      (TriSurface_init v tr l iv).vertices = v ∧
      (TriSurface_init v tr l iv).triangles = tr ∧
      (TriSurface_init v tr l iv).inflated_vertices = iv) := by
  refine ⟨⟨?_, ?_⟩, ?_, ?_⟩
  · intro h
    by_cases hc : allcloseInt (gs.readGeometry meshfile).2
        (gs.readGeometry p).2 = false
    · exact hc
    · unfold TriSurface_load at h
      dsimp only at h
      rw [if_neg hc] at h
      cases h
  · intro hc
    unfold TriSurface_load
    dsimp only
    rw [if_pos hc]
  · intro hc
    have hne : ¬ (allcloseInt (gs.readGeometry meshfile).2
        (gs.readGeometry p).2 = false) := by
      rw [hc]
      simp
    unfold TriSurface_load
    dsimp only
    rw [if_neg hne]
    rfl
  · intro v tr l iv
    exact ⟨rfl, rfl, rfl⟩

/-- A geometry store for the C7 witness in which the base and inflated
triangle arrays differ — indices 100001 and 100002 — yet `numpy.allclose`
accepts them, the difference lying inside the relative tolerance. -/
def demoGeomStore : GeomStore :=
  ⟨fun path =>
    if path = "/surf/lh.white" then
      ([[0, 0, 0], [1, 0, 0], [0, 1, 0]], [[100001, 0, 1]])
    else
      ([[9, 9, 9], [8, 8, 8], [7, 7, 7]], [[100002, 0, 1]])⟩

/-- Witness for C7 (amended): `load` succeeds on the two differing but
`allclose`-accepted triangle arrays and keeps the base triangles. -/
theorem TriSurface_load_spec_witness :
    TriSurface_load demoGeomStore "/surf/lh.white" (some "/surf/lh.inflated") =
      Except.ok
        { vertices := (demoGeomStore.readGeometry "/surf/lh.white").1
          triangles := (demoGeomStore.readGeometry "/surf/lh.white").2
          labels :=
            List.replicate
              (demoGeomStore.readGeometry "/surf/lh.white").1.length 0
          inflated_vertices :=
            some (demoGeomStore.readGeometry "/surf/lh.inflated").1 } :=
  (TriSurface_load_spec demoGeomStore "/surf/lh.white"
    "/surf/lh.inflated").2.1 (by decide)

/-! ### `apply_affine_on_mesh` (`pyfreesurfer/utils/surftools.py`, lines
348–367)

    N, _ = vertices.shape
    ones = numpy.ones((N, 1), dtype=vertices.dtype)
    homogenous_vertices = numpy.concatenate((vertices, ones), axis=1)
    warp_vertices = numpy.dot(affine, homogenous_vertices.T).T[..., :3]

Row `i` of `homogenous_vertices` is `vertices[i] ++ [1]`; entry `(i, j)` of
`numpy.dot(affine, H.T).T` is the dot product of row `j` of `affine` with
row `i` of `H`; `[..., :3]` keeps the first three columns.  Every numpy
operation used (`ones`, `concatenate`, `dot`) allocates a fresh array and
none writes into `vertices`, which the store-passing variant records. -/

def dotProd (xs ys : List ℚ) : ℚ :=
  (List.zipWith (fun a b => a * b) xs ys).sum

def apply_affine_on_mesh (vertices : List (List ℚ))
    (affine : List (List ℚ)) : List (List ℚ) :=
  vertices.map (fun v => (affine.map (fun row => dotProd row (v ++ [1]))).take 3)

/-- `apply_affine_on_mesh` with the vertex buffer held in a store of live
arrays: the computation only reads the buffer — no numpy operation in the
source writes into `vertices` — so the store comes back unchanged. -/
def apply_affine_on_mesh_run (store : List (List (List ℚ))) (vref : Nat)
    (affine : List (List ℚ)) :
    List (List ℚ) × List (List (List ℚ)) :=
  (apply_affine_on_mesh (store.getD vref []) affine, store)

theorem zipWith_mul_sum (n : Nat) (xs ys : List ℚ) (hx : xs.length = n)
    (hy : ys.length = n) :
    (List.zipWith (fun a b => a * b) xs ys).sum =
      ∑ k ∈ Finset.range n, xs.getD k 0 * ys.getD k 0 := by
  induction n generalizing xs ys with
  | zero =>
      have hx0 : xs = [] := List.length_eq_zero.mp hx
      have hy0 : ys = [] := List.length_eq_zero.mp hy
      subst hx0
      subst hy0
      simp
  | succ n ih =>
      cases xs with
      | nil => simp at hx
      | cons x xs' =>
          cases ys with
          | nil => simp at hy
          | cons y ys' =>
              rw [List.zipWith_cons_cons, List.sum_cons,
                Finset.sum_range_succ']
              simp only [List.getD_cons_succ, List.getD_cons_zero]
              rw [ih xs' ys' (by simpa using hx) (by simpa using hy)]
              ring

/-- C8.  For an `N × 3` vertex array and a `4 × 4` affine matrix,
`apply_affine_on_mesh` returns an array of `N` rows whose `i`-th row, in
each coordinate `j < 3`, is the `j`-th component of the affine matrix
applied to the `i`-th vertex extended with homogeneous coordinate `1`; the
input vertex buffer is left unmodified. -/
theorem apply_affine_on_mesh_spec (vertices affine : List (List ℚ))
    (hv : ∀ v ∈ vertices, v.length = 3) (ha : affine.length = 4)
    (har : ∀ row ∈ affine, row.length = 4) :
    (apply_affine_on_mesh vertices affine).length = vertices.length ∧
    (∀ i, i < vertices.length → ∀ j, j < 3 →
      ((apply_affine_on_mesh vertices affine).getD i []).getD j 0 =
        ∑ k ∈ Finset.range 4,
          (affine.getD j []).getD k 0 *
            (vertices.getD i [] ++ [1]).getD k 0) ∧
    (∀ store vref, (apply_affine_on_mesh_run store vref affine).2 = store) := by
  refine ⟨by simp [apply_affine_on_mesh], ?_, fun store vref => rfl⟩
  intro i hi j hj
  have hj4 : j < affine.length := by omega
  have hvig : vertices.getD i [] = vertices[i] := by
    rw [List.getD_eq_getElem?_getD, List.getElem?_eq_getElem hi]
    rfl
  have h1 : (apply_affine_on_mesh vertices affine).getD i [] =
      (affine.map (fun row => dotProd row (vertices.getD i [] ++ [1]))).take 3 := by
    unfold apply_affine_on_mesh
    rw [List.getD_eq_getElem?_getD, List.getElem?_map,
      List.getElem?_eq_getElem hi, hvig]
    rfl
  rw [h1, List.getD_eq_getElem?_getD, List.getElem?_take, if_pos hj,
    List.getElem?_map, List.getElem?_eq_getElem hj4]
  have hajg : affine.getD j [] = affine[j] := by
    rw [List.getD_eq_getElem?_getD, List.getElem?_eq_getElem hj4]
    rfl
  have hrowlen : affine[j].length = 4 := har affine[j] (List.getElem_mem hj4)
  have hhvlen : (vertices.getD i [] ++ [1]).length = 4 := by
    rw [hvig]
    simp [hv vertices[i] (List.getElem_mem hi)]
  show dotProd affine[j] (vertices.getD i [] ++ [1]) = _
  unfold dotProd
  rw [zipWith_mul_sum 4 affine[j] (vertices.getD i [] ++ [1]) hrowlen hhvlen,
    hajg]

/-- Witness for C8 at a concrete two-vertex mesh and a translation
matrix. -/
theorem apply_affine_on_mesh_spec_witness :
    (apply_affine_on_mesh [[1, 2, 3], [4, 5, 6]]
        [[1, 0, 0, 10], [0, 1, 0, 20], [0, 0, 1, 30], [0, 0, 0, 1]]).length =
      ([[1, 2, 3], [4, 5, 6]] : List (List ℚ)).length ∧
    ((apply_affine_on_mesh [[1, 2, 3], [4, 5, 6]]
        [[1, 0, 0, 10], [0, 1, 0, 20], [0, 0, 1, 30], [0, 0, 0, 1]]).getD 1
          []).getD 0 0 =
      ∑ k ∈ Finset.range 4,
        (([[1, 0, 0, 10], [0, 1, 0, 20], [0, 0, 1, 30],
            [0, 0, 0, 1]] : List (List ℚ)).getD 0 []).getD k 0 *
          (([[1, 2, 3], [4, 5, 6]] : List (List ℚ)).getD 1 [] ++ [1]).getD k 0 := by
  have h := apply_affine_on_mesh_spec [[1, 2, 3], [4, 5, 6]]
    [[1, 0, 0, 10], [0, 1, 0, 20], [0, 0, 1, 30], [0, 0, 0, 1]]
    (by intro v hv; fin_cases hv <;> rfl) rfl
    (by intro row hrow; fin_cases hrow <;> rfl)
  exact ⟨h.1, h.2.1 1 (by decide) 0 (by decide)⟩

end PyFreeSurfer
